import Mathlib

/-!
Verification of the shamebot Task Lifecycle & Accountability Engine.

The data types (`Task`, `Proof`, `RequestStatus`, `AccountabilityRequest`,
`GenericError`, `GenericResponse`, `Health`, `Client`) are embedded from
`src/frontend/src/api/types.ts`, the SQL schema, and the API client source.
The engine operations (scheduler, dispatcher, task state machine,
accountability workflow, proof store) are not present in the repository
sources — only their data types and the HTTP client are — so they are
modelled from the specification document, as marked on each definition.
-/

namespace Shamebot

/-- Embedded from `src/frontend/src/api/types.ts` (`Task`): optional fields
become `Option`, `string` becomes `String`, `number` becomes `Nat`. -/
structure Task where
  id : String
  list_id : String
  user_id : Nat
  guild_id : Nat
  title : String
  content : Option String
  checked : Bool
  pester : Option Nat
  due_at : Option Nat
  proof_id : Option String
  pester_job : Option String
  overdue_job : Option String
  reminder_job : Option String
deriving DecidableEq, Repr

/-- Embedded from `src/frontend/src/api/types.ts` (`Proof`) and the SQL
`proof` table (`approved BOOLEAN DEFAULT false`). -/
structure Proof where
  id : String
  content : Option String
  image : Option String
  approved : Bool
deriving DecidableEq, Repr

/-- Embedded from `src/frontend/src/api/types.ts` (`RequestStatus`) and the
SQL enum `accepted AS ENUM ('accepted', 'pending', 'rejected')`. -/
inductive RequestStatus
  | accepted
  | pending
  | rejected
deriving DecidableEq, Repr

/-- Embedded from `src/frontend/src/api/types.ts` (`AccountabilityRequest`)
and the SQL `accountability_requests` table, whose primary key is the pair
`(requested_user, task_id)`. -/
structure AccountabilityRequest where
  requesting_user : Nat
  requested_user : Nat
  task_id : String
  status : RequestStatus
deriving DecidableEq, Repr

/-- Modelled from the spec: job kinds `{Pester, Reminder, Overdue}` of the
Scheduler Primitive (missing from the sources; only the `pester_job`,
`overdue_job`, `reminder_job` handle fields of `Task` appear there). -/
inductive JobKind
  | pester
  | reminder
  | overdue
deriving DecidableEq, Repr

/-- Modelled from the spec: a scheduled Job owned by the Scheduler Primitive,
with an opaque handle, fire time, kind, owning task id, and a
generation/version token used to detect and discard stale firings. -/
structure Job where
  handle : String
  task_id : String
  kind : JobKind
  fire_at : Nat
  gen : Nat
deriving DecidableEq, Repr

/-- Modelled from the spec: current generation counter per (task, kind) pair,
kept as an association list (front binding wins); an unbound pair has
generation 0. -/
def getGen : List ((String × JobKind) × Nat) → String → JobKind → Nat
  | [], _, _ => 0
  | ((t0, k0), g) :: rest, t, k => if t0 = t ∧ k0 = k then g else getGen rest t k

/-- Modelled from the spec: the Scheduler Primitive's durable store of
scheduled jobs plus the generation counters. -/
structure Sched where
  jobs : List Job
  gens : List ((String × JobKind) × Nat)
  nextHandle : Nat
deriving DecidableEq, Repr

/-- Modelled from the spec: cancelling the (task, kind) pair removes its live
job from the store and invalidates the pair's generation, so a late-arriving
firing of the old handle is detected and dropped by the Dispatcher. -/
def Sched.cancelPair (s : Sched) (t : String) (k : JobKind) : Sched :=
  { jobs := s.jobs.filter fun j => decide (¬(j.task_id = t ∧ j.kind = k))
    gens := ((t, k), getGen s.gens t k + 1) :: s.gens
    nextHandle := s.nextHandle }

/-- Modelled from the spec: `schedule(task_id, kind, fire_at) -> job_handle`;
a schedule for a task+kind pair that already has a live handle cancels the
stale handle and invalidates its generation before minting a new one. -/
def Sched.schedule (s : Sched) (t : String) (k : JobKind) (fire_at : Nat) :
    Sched × String :=
  let s1 := s.cancelPair t k
  let h := toString s1.nextHandle
  ({ s1 with
      jobs := { handle := h, task_id := t, kind := k, fire_at := fire_at,
                gen := getGen s1.gens t k } :: s1.jobs
      nextHandle := s1.nextHandle + 1 }, h)

/-- Modelled from the spec: cancelling all outstanding job handles of a task
cancels all three kinds. -/
def Sched.cancelAll (s : Sched) (t : String) : Sched :=
  ((s.cancelPair t .pester).cancelPair t .reminder).cancelPair t .overdue

/-- Modelled from the spec: `due_jobs(now)` produces all jobs whose fire time
is at most `now` and which have not yet been marked delivered. -/
def Sched.dueJobs (s : Sched) (now : Nat) : List Job :=
  s.jobs.filter fun j => decide (j.fire_at ≤ now)

/-- The empty scheduler store. -/
def Sched.init : Sched := { jobs := [], gens := [], nextHandle := 0 }

/-- Modelled from the spec: the error kinds of §7. -/
inductive ApiError
  | notFound
  | conflict
  | gateNotSatisfied
  | staleJob
  | deliveryFailure
deriving DecidableEq, Repr

/-- Modelled from the spec: a delivered notification record of the
Notification Sink, tagged with the firing job's task, kind and generation. -/
structure Notification where
  task_id : String
  kind : JobKind
  gen : Nat
deriving DecidableEq, Repr

/-- Modelled from the spec: scheduling parameters — the current time, the
pester repeat interval, and how long before `due_at` the one-shot Reminder
fires. -/
structure Config where
  now : Nat
  pesterInterval : Nat
  reminderLead : Nat
deriving DecidableEq, Repr

/-- Modelled from the spec: the engine's shared state — tasks, proofs,
accountability requests, the Scheduler Primitive's store, the delivered
notifications, and a counter minting fresh proof ids. -/
structure EngineState where
  tasks : List Task
  proofs : List Proof
  requests : List AccountabilityRequest
  sched : Sched
  notifications : List Notification
  nextProofId : Nat
deriving DecidableEq, Repr

/-- The initial engine state: everything empty. -/
def initState : EngineState :=
  { tasks := [], proofs := [], requests := [], sched := Sched.init,
    notifications := [], nextProofId := 0 }

/-- Look up a task by id. -/
def findTask (ts : List Task) (tid : String) : Option Task :=
  ts.find? fun t => decide (t.id = tid)

/-- Look up a proof by id. -/
def findProof (ps : List Proof) (pid : String) : Option Proof :=
  ps.find? fun p => decide (p.id = pid)

/-- Look up the accountability request with composite key
`(requested_user, task_id)`. -/
def findReq (rs : List AccountabilityRequest) (rd : Nat) (tid : String) :
    Option AccountabilityRequest :=
  rs.find? fun r => decide (r.requested_user = rd ∧ r.task_id = tid)

/-- Replace, by id, a task in the task list. -/
def updTask (ts : List Task) (t : Task) : List Task :=
  ts.map fun u => if u.id = t.id then t else u

/-- Modelled from the spec: a task has an accountability partner exactly when
an Accepted request targets it. -/
def hasAcceptedRequest (rs : List AccountabilityRequest) (tid : String) : Bool :=
  rs.any fun r => decide (r.task_id = tid ∧ r.status = RequestStatus.accepted)

/-- Modelled from the spec: an active (Pending or Accepted) request for the
`(requested_user, task_id)` pair. -/
def activeReq (rs : List AccountabilityRequest) (rd : Nat) (tid : String) : Bool :=
  rs.any fun r => decide (r.requested_user = rd ∧ r.task_id = tid ∧
    (r.status = RequestStatus.pending ∨ r.status = RequestStatus.accepted))

/-- Store a (possibly absent) job handle into the task field of one kind. -/
def setJobField (t : Task) (k : JobKind) (h : Option String) : Task :=
  match k with
  | .pester => { t with pester_job := h }
  | .reminder => { t with reminder_job := h }
  | .overdue => { t with overdue_job := h }

/-- Modelled from the spec: the job set a task must have — none when the task
is checked or has no due date (`due_at` absent, or zero meaning "no due
date"); otherwise a Reminder before due, an Overdue at due, and a first
Pester if pestering is configured. -/
def deriveJobs (cfg : Config) (t : Task) : List (JobKind × Nat) :=
  if t.checked then []
  else
    match t.due_at with
    | none => []
    | some d =>
      if d = 0 then []
      else
        [(JobKind.reminder, d - cfg.reminderLead), (JobKind.overdue, d)] ++
          (if 0 < t.pester.getD 0 then [(JobKind.pester, cfg.now + cfg.pesterInterval)]
           else [])

/-- Schedule one derived job and record its handle on the task. -/
def scheduleOne (acc : Sched × Task) (jk : JobKind × Nat) : Sched × Task :=
  let r := acc.1.schedule acc.2.id jk.1 jk.2
  (r.1, setJobField acc.2 jk.1 (some r.2))

/-- Clear the three job-handle fields of a task. -/
def clearJobFields (t : Task) : Task :=
  { t with pester_job := none, reminder_job := none, overdue_job := none }

/-- Modelled from the spec: reconciliation — cancel the task's stale handles
for every kind, then schedule the freshly derived job set. -/
def reconcile (cfg : Config) (sc : Sched) (t : Task) : Sched × Task :=
  (deriveJobs cfg (clearJobFields t)).foldl scheduleOne
    (sc.cancelAll t.id, clearJobFields t)

/-- Modelled from the spec: a freshly created task record — `checked` and
`proof_id` default to false and absent (as in the SQL schema), and no job
handles are attached yet. -/
def newTask (id list_id : String) (user_id guild_id : Nat) (title : String)
    (content : Option String) (pester : Option Nat) (due_at : Option Nat) :
    Task :=
  { id := id
    list_id := list_id
    user_id := user_id
    guild_id := guild_id
    title := title
    content := content
    checked := false
    pester := pester
    due_at := due_at
    proof_id := none
    pester_job := none
    overdue_job := none
    reminder_job := none }

/-- Modelled from the spec: `createTask` — inserts a fresh unchecked task
and reconciles its job set; a duplicate id is a Conflict. -/
def createTask (cfg : Config) (s : EngineState) (id list_id : String)
    (user_id guild_id : Nat) (title : String) (content : Option String)
    (pester : Option Nat) (due_at : Option Nat) : Except ApiError EngineState :=
  match findTask s.tasks id with
  | some _ => .error .conflict
  | none =>
    let t := newTask id list_id user_id guild_id title content pester due_at
    let r := reconcile cfg s.sched t
    .ok { s with tasks := r.2 :: s.tasks, sched := r.1 }

/-- Modelled from the spec: `editTask(due_at?)` — cancels the task's existing
job handles and re-derives fresh ones against the new due time. -/
def editTask (cfg : Config) (s : EngineState) (tid : String)
    (due_at : Option Nat) : Except ApiError EngineState :=
  match findTask s.tasks tid with
  | none => .error .notFound
  | some t =>
    let r := reconcile cfg s.sched { t with due_at := due_at }
    .ok { s with tasks := updTask s.tasks r.2, sched := r.1 }

/-- A task after a successful check: `checked` set, job handles cleared. -/
def checkedTask (t : Task) : Task :=
  { clearJobFields t with checked := true }

/-- Mark a task checked and cancel all of its outstanding job handles. -/
def applyCheck (s : EngineState) (t : Task) : EngineState :=
  { s with
      tasks := updTask s.tasks (checkedTask t)
      sched := s.sched.cancelAll t.id }

/-- Modelled from the spec: `checkTask` — a second check is a Conflict; with
an Accepted accountability request attached the transition is gated on the
linked Proof being present and approved (`GateNotSatisfied` otherwise); with
no Accepted request the task checks unconditionally. -/
def checkTask (s : EngineState) (tid : String) : Except ApiError EngineState :=
  match findTask s.tasks tid with
  | none => .error .notFound
  | some t =>
    if t.checked then .error .conflict
    else if hasAcceptedRequest s.requests tid then
      match t.proof_id with
      | none => .error .gateNotSatisfied
      | some pid =>
        match findProof s.proofs pid with
        | none => .error .gateNotSatisfied
        | some p =>
          if p.approved then .ok (applyCheck s t) else .error .gateNotSatisfied
    else .ok (applyCheck s t)

/-- Modelled from the spec: deletion cancels every outstanding job handle of
the task, removes the task, and cascades deletion of its
AccountabilityRequest (SQL `ON DELETE CASCADE`); the Proof row is detached,
not deleted, since only the task referenced it. -/
def deleteResult (s : EngineState) (tid : String) : EngineState :=
  { s with
      tasks := s.tasks.filter fun t => decide (¬t.id = tid)
      requests := s.requests.filter fun r => decide (¬r.task_id = tid)
      sched := s.sched.cancelAll tid }

/-- Modelled from the spec: `deleteTask` — an unknown id is NotFound. -/
def deleteTask (s : EngineState) (tid : String) : Except ApiError EngineState :=
  match findTask s.tasks tid with
  | none => .error .notFound
  | some _ => .ok (deleteResult s tid)

/-- Modelled from the spec: creating an accountability request inserts it in
Pending state, replacing any Rejected leftover for the same composite key
`(requested_user, task_id)`. -/
def requestResult (s : EngineState) (requesting requested : Nat)
    (tid : String) : EngineState :=
  { s with requests :=
    { requesting_user := requesting
      requested_user := requested
      task_id := tid
      status := RequestStatus.pending } ::
    s.requests.filter fun r =>
      decide (¬(r.requested_user = requested ∧ r.task_id = tid)) }

/-- Modelled from the spec: `requestAccountability` — fails with Conflict if
an active (Pending or Accepted) request already exists for the
`(requested_user, task_id)` pair. -/
def requestAccountability (s : EngineState) (requesting requested : Nat)
    (tid : String) : Except ApiError EngineState :=
  match findTask s.tasks tid with
  | none => .error .notFound
  | some _ =>
    if activeReq s.requests requested tid then .error .conflict
    else .ok (requestResult s requesting requested tid)

/-- Modelled from the spec: responding writes Accepted or Rejected into the
request with the matching (requested_user, task_id) composite key. -/
def respondResult (s : EngineState) (requested : Nat) (tid : String)
    (accept : Bool) : EngineState :=
  { s with requests := s.requests.map fun r' =>
    if r'.requested_user = requested ∧ r'.task_id = tid then
      { r' with status := if accept then RequestStatus.accepted
                          else RequestStatus.rejected }
    else r' }

/-- Modelled from the spec: `respondAccountability` — only valid from
Pending; a second respond is a Conflict that leaves the stored status
untouched (the error branch produces no new state). -/
def respondAccountability (s : EngineState) (requested : Nat) (tid : String)
    (accept : Bool) : Except ApiError EngineState :=
  match findReq s.requests requested tid with
  | none => .error .notFound
  | some r =>
    if r.status = RequestStatus.pending then .ok (respondResult s requested tid accept)
    else .error .conflict

/-- Modelled from the spec: the Proof minted by a submission — fresh id,
the submitted content and image, and `approved = false` (the SQL default). -/
def newProof (s : EngineState) (content image : Option String) : Proof :=
  { id := toString s.nextProofId
    content := content
    image := image
    approved := false }

/-- Modelled from the spec: submitting completion evidence mints a new Proof
with `approved = false` (the SQL default), supersedes and discards any prior
Proof of the task, and points the task at the new Proof. -/
def submitResult (s : EngineState) (t : Task) (content image : Option String) :
    EngineState :=
  { s with
      proofs :=
        newProof s content image ::
        (match t.proof_id with
         | none => s.proofs
         | some old => s.proofs.filter fun q => decide (¬q.id = old))
      tasks := updTask s.tasks { t with proof_id := some (toString s.nextProofId) }
      nextProofId := s.nextProofId + 1 }

/-- Modelled from the spec: `submitProof` — allowed only if the task has an
Accepted AccountabilityRequest (Conflict otherwise). -/
def submitProof (s : EngineState) (tid : String) (content image : Option String) :
    Except ApiError EngineState :=
  match findTask s.tasks tid with
  | none => .error .notFound
  | some t =>
    if hasAcceptedRequest s.requests tid then
      .ok (submitResult s t content image)
    else .error .conflict

/-- Modelled from the spec: a review writes the `approved` flag of the
reviewed Proof — true on approve, false on reject. -/
def reviewResult (s : EngineState) (pid : String) (approve : Bool) :
    EngineState :=
  { s with proofs := s.proofs.map fun q =>
    if q.id = pid then { q with approved := approve } else q }

/-- Modelled from the spec: `reviewProof(approve|reject)` — only the
accountability partner (the `requested_user` of the Accepted request on the
owning task) may review, and a Proof is immutable once approved (Conflict). -/
def reviewProof (s : EngineState) (uid : Nat) (pid : String) (approve : Bool) :
    Except ApiError EngineState :=
  match findProof s.proofs pid with
  | none => .error .notFound
  | some p =>
    if p.approved then .error .conflict
    else
      match s.tasks.find? fun t => decide (t.proof_id = some pid) with
      | none => .error .notFound
      | some t =>
        match s.requests.find? fun r =>
            decide (r.task_id = t.id ∧ r.status = RequestStatus.accepted) with
        | none => .error .conflict
        | some r =>
          if r.requested_user = uid then .ok (reviewResult s pid approve)
          else .error .conflict

/-- Modelled from the spec: the outcome of one Dispatcher firing. -/
inductive FireResult
  | delivered
  | staleDropped
  | skippedChecked
deriving DecidableEq, Repr

/-- Modelled from the spec: the Job Dispatcher handling one firing — it first
verifies the handle's generation is still current (stale or superseded
firings are dropped without any notification), re-reads `checked` at
invocation time, delivers the notification, and for a Pester with further
pesters remaining reschedules the next one. -/
def dispatchFire (cfg : Config) (s : EngineState) (j : Job) :
    EngineState × FireResult :=
  if j.gen ≠ getGen s.sched.gens j.task_id j.kind then (s, .staleDropped)
  else
    match findTask s.tasks j.task_id with
    | none => (s, .staleDropped)
    | some t =>
      let keptJobs := s.sched.jobs.filter fun j' => decide (¬j' = j)
      let sc1 : Sched := { s.sched with jobs := keptJobs }
      if t.checked then ({ s with sched := sc1 }, .skippedChecked)
      else
        let note : Notification :=
          { task_id := j.task_id, kind := j.kind, gen := j.gen }
        let s1 := { s with sched := sc1, notifications := note :: s.notifications }
        match j.kind with
        | .pester =>
          let remaining := t.pester.getD 0
          if 1 < remaining then
            let r := s1.sched.schedule t.id .pester (j.fire_at + cfg.pesterInterval)
            let t' : Task :=
              { t with pester := some (remaining - 1), pester_job := some r.2 }
            ({ s1 with sched := r.1, tasks := updTask s1.tasks t' }, .delivered)
          else
            let t' : Task :=
              { t with pester := some (remaining - 1), pester_job := none }
            ({ s1 with tasks := updTask s1.tasks t' }, .delivered)
        | .reminder => (s1, .delivered)
        | .overdue => (s1, .delivered)

/-- Modelled from the spec: one step of the engine — any exposed operation
that succeeds, or one Dispatcher firing (of any in-flight handle, including
a stale one). -/
inductive Step : EngineState → EngineState → Prop
  | create (cfg : Config) (s : EngineState) (id list_id : String)
      (user_id guild_id : Nat) (title : String) (content : Option String)
      (pester : Option Nat) (due_at : Option Nat) (s' : EngineState) :
      createTask cfg s id list_id user_id guild_id title content pester due_at
        = .ok s' → Step s s'
  | edit (cfg : Config) (s : EngineState) (tid : String) (due_at : Option Nat)
      (s' : EngineState) : editTask cfg s tid due_at = .ok s' → Step s s'
  | check (s : EngineState) (tid : String) (s' : EngineState) :
      checkTask s tid = .ok s' → Step s s'
  | delete (s : EngineState) (tid : String) (s' : EngineState) :
      deleteTask s tid = .ok s' → Step s s'
  | request (s : EngineState) (requesting requested : Nat) (tid : String)
      (s' : EngineState) :
      requestAccountability s requesting requested tid = .ok s' → Step s s'
  | respond (s : EngineState) (requested : Nat) (tid : String) (accept : Bool)
      (s' : EngineState) :
      respondAccountability s requested tid accept = .ok s' → Step s s'
  | submit (s : EngineState) (tid : String) (content image : Option String)
      (s' : EngineState) :
      submitProof s tid content image = .ok s' → Step s s'
  | review (s : EngineState) (uid : Nat) (pid : String) (approve : Bool)
      (s' : EngineState) :
      reviewProof s uid pid approve = .ok s' → Step s s'
  | fire (cfg : Config) (s : EngineState) (j : Job) (r : FireResult)
      (s' : EngineState) : dispatchFire cfg s j = (s', r) → Step s s'

/-- Modelled from the spec: the reachable engine states — everything the
exposed operations and the Dispatcher can produce from the empty state. -/
def Reachable (s : EngineState) : Prop :=
  Relation.ReflTransGen Step initState s

/-- At most one job in the scheduler store per (task, kind) pair. -/
def SchedUniq (sc : Sched) : Prop :=
  ∀ j1 ∈ sc.jobs, ∀ j2 ∈ sc.jobs,
    j1.task_id = j2.task_id → j1.kind = j2.kind → j1 = j2

/-- Every job in the store carries the current generation of its pair. -/
def GenCur (sc : Sched) : Prop :=
  ∀ j ∈ sc.jobs, j.gen = getGen sc.gens j.task_id j.kind

/-- At most one accountability request per (requested_user, task_id) pair. -/
def ReqUniq (rs : List AccountabilityRequest) : Prop :=
  ∀ r1 ∈ rs, ∀ r2 ∈ rs,
    r1.requested_user = r2.requested_user → r1.task_id = r2.task_id → r1 = r2

/-- The engine's structural invariant. -/
def Inv (s : EngineState) : Prop :=
  SchedUniq s.sched ∧ GenCur s.sched ∧ ReqUniq s.requests

/-- Whether the task with the given id is present and checked. -/
def taskCheckedIn (s : EngineState) (tid : String) : Bool :=
  match findTask s.tasks tid with
  | some t => t.checked
  | none => false

/-- Embedded from the API client source (`GenericError`): a free-text error
message. -/
structure GenericError where
  message : String
deriving DecidableEq, Repr

/-- Embedded from the API client source (`GenericResponse`): `data:
Array<any>` is modelled as a list of opaque JSON fragments. -/
structure GenericResponse where
  status : Nat
  data : List String
  error : Option GenericError
deriving DecidableEq, Repr

/-- Embedded from the API client source (`Health`). -/
structure Health where
  status : Nat
  text : String
deriving DecidableEq, Repr

/-- An HTTP response as the client observes it: the status code, the status
text, and the JSON value `resp.json()` parses the body to. -/
structure HttpResponse where
  status : Nat
  statusText : String
  body : GenericResponse
deriving DecidableEq, Repr

/-- Embedded from the API client source (`Client`): holds the base URL. -/
structure Client where
  base_url : String
deriving DecidableEq, Repr

/-- Embedded from the API client source: `request(endpoint)` fetches
`base_url/endpoint` and returns `resp.json()` — the parsed body — with no
inspection of the HTTP status and no separate error path (the return type is
the plain `GenericResponse`). The ambient `fetch` is passed explicitly. -/
def Client.request (fetch : String → HttpResponse) (c : Client)
    (endpoint : String) : GenericResponse :=
  let resp := fetch (c.base_url ++ "/" ++ endpoint)
  resp.body

/-- Embedded from the API client source: `health()` returns the status code
and status text of `base_url/health`. -/
def Client.health (fetch : String → HttpResponse) (c : Client) : Health :=
  let resp := fetch (c.base_url ++ "/health")
  { status := resp.status, text := resp.statusText }

/-- A task linked to proof p1 and targeted by an accepted request. -/
def exC1t : Task :=
  { id := "t1"
    list_id := "l1"
    user_id := 1
    guild_id := 1
    title := "w"
    content := none
    checked := false
    pester := none
    due_at := none
    proof_id := some "p1"
    pester_job := none
    overdue_job := none
    reminder_job := none }

/-- An approved proof. -/
def exC1p : Proof := { id := "p1", content := none, image := none, approved := true }

/-- An accepted accountability request for task t1. -/
def exC1r : AccountabilityRequest :=
  { requesting_user := 1
    requested_user := 2
    task_id := "t1"
    status := RequestStatus.accepted }

/-- A state in which t1 is gated by an accepted request with approved proof. -/
def exC1s : EngineState :=
  { tasks := [exC1t]
    proofs := [exC1p]
    requests := [exC1r]
    sched := Sched.init
    notifications := []
    nextProofId := 0 }

/-- A scheduling configuration used by the concrete examples. -/
def cfgC2 : Config := { now := 0, pesterInterval := 10, reminderLead := 5 }

/-- The state after creating task t1 with a due date, reachable from the
empty state. -/
def exC2s : EngineState :=
  (createTask cfgC2 initState "t1" "l1" 1 1 "w" none none (some 100)).toOption.getD
    initState

/-- The state after editing t1's due date in `exC3a`, superseding the
generation of the overdue handle scheduled at creation. -/
def exC3a : EngineState :=
  (createTask cfgC2 initState "t1" "l1" 1 1 "w" none none (some 100)).toOption.getD
    initState

/-- The overdue handle minted when t1 was created in `exC3a`. -/
def exC3j : Job :=
  { handle := "1", task_id := "t1", kind := JobKind.overdue, fire_at := 100,
    gen := 2 }

/-- `exC3a` after editing t1's due date to 200. -/
def exC3b : EngineState :=
  (editTask cfgC2 exC3a "t1" (some 200)).toOption.getD initState

/-- `exC3b` after a further intervening step: a second task t2 is created
before the stale handle of t1 finally fires. -/
def exC3c : EngineState :=
  (createTask cfgC2 exC3b "t2" "l1" 1 1 "w" none none (some 300)).toOption.getD
    initState

/-- The state after creating task t1 (no due date), reachable from the empty
state; it has no accountability request yet. -/
def exC4s : EngineState :=
  (createTask cfgC2 initState "t1" "l1" 1 1 "w" none none none).toOption.getD
    initState

/-- The pending request user 1 asks partner 2 to take on for task t1. -/
def exC4req : AccountabilityRequest :=
  { requesting_user := 1
    requested_user := 2
    task_id := "t1"
    status := RequestStatus.pending }

/-- A Pending request from user 1 to partner 2 for task t1. -/
def exC5req : AccountabilityRequest :=
  { requesting_user := 1
    requested_user := 2
    task_id := "t1"
    status := RequestStatus.pending }

/-- A state holding a single Pending request from user 1 to partner 2 for
task t1. -/
def exC5s : EngineState :=
  { tasks := []
    proofs := []
    requests := [exC5req]
    sched := Sched.init
    notifications := []
    nextProofId := 0 }

/-- A task with an accepted partner and no proof yet, for exercising
`submitProof`. -/
def exC6t : Task :=
  { id := "t1"
    list_id := "l1"
    user_id := 1
    guild_id := 1
    title := "w"
    content := none
    checked := false
    pester := none
    due_at := none
    proof_id := none
    pester_job := none
    overdue_job := none
    reminder_job := none }

/-- An accepted request gating task t1, partner user 2. -/
def exC6r : AccountabilityRequest :=
  { requesting_user := 1
    requested_user := 2
    task_id := "t1"
    status := RequestStatus.accepted }

/-- A state where task t1 is gated by an accepted request and has no proof. -/
def exC6s : EngineState :=
  { tasks := [exC6t]
    proofs := []
    requests := [exC6r]
    sched := Sched.init
    notifications := []
    nextProofId := 0 }

/-- A task t1 to be deleted. -/
def exC7t : Task :=
  { id := "t1"
    list_id := "l1"
    user_id := 1
    guild_id := 1
    title := "w"
    content := none
    checked := false
    pester := none
    due_at := some 100
    proof_id := none
    pester_job := some "0"
    overdue_job := none
    reminder_job := none }

/-- An outstanding job handle for t1. -/
def exC7j : Job :=
  { handle := "0", task_id := "t1", kind := JobKind.pester, fire_at := 50,
    gen := 1 }

/-- A pending request targeting t1. -/
def exC7r : AccountabilityRequest :=
  { requesting_user := 1
    requested_user := 2
    task_id := "t1"
    status := RequestStatus.pending }

/-- A state holding t1, one live job handle for it, and a request on it. -/
def exC7s : EngineState :=
  { tasks := [exC7t]
    proofs := []
    requests := [exC7r]
    sched := { jobs := [exC7j], gens := [(("t1", JobKind.pester), 1)],
               nextHandle := 1 }
    notifications := []
    nextProofId := 0 }

/-- A task with `due_at = 0`, the SQL default meaning "no due date". -/
def exC9t : Task :=
  { id := "t1"
    list_id := "l1"
    user_id := 1
    guild_id := 1
    title := "w"
    content := none
    checked := false
    pester := some 3
    due_at := some 0
    proof_id := none
    pester_job := none
    overdue_job := none
    reminder_job := none }

/-- A fetch stub answering 200 with an empty body. -/
def exFetchOk : String → HttpResponse :=
  fun _ => { status := 200, statusText := "OK",
             body := { status := 0, data := [], error := none } }

/-- A fetch stub answering 404 with the same body as `exFetchOk`. -/
def exFetchErr : String → HttpResponse :=
  fun _ => { status := 404, statusText := "Not Found",
             body := { status := 0, data := [], error := none } }

theorem getGen_cons (t0 : String) (k0 : JobKind) (g : Nat)
    (rest : List ((String × JobKind) × Nat)) (t : String) (k : JobKind) :
    getGen (((t0, k0), g) :: rest) t k =
      if t0 = t ∧ k0 = k then g else getGen rest t k := rfl

theorem mem_cancelPair_jobs {s : Sched} {t : String} {k : JobKind} {j : Job} :
    j ∈ (s.cancelPair t k).jobs ↔ j ∈ s.jobs ∧ ¬(j.task_id = t ∧ j.kind = k) := by
  simp only [Sched.cancelPair, List.mem_filter, decide_eq_true_eq]

theorem cancelPair_gens (s : Sched) (t : String) (k : JobKind)
    (t' : String) (k' : JobKind) :
    getGen (s.cancelPair t k).gens t' k' =
      if t = t' ∧ k = k' then getGen s.gens t k + 1 else getGen s.gens t' k' := by
  simp [Sched.cancelPair, getGen_cons]

theorem cancelPair_gens_self (s : Sched) (t : String) (k : JobKind) :
    getGen (s.cancelPair t k).gens t k = getGen s.gens t k + 1 := by
  simp [cancelPair_gens]

theorem cancelPair_gens_ge (s : Sched) (t : String) (k : JobKind)
    (t' : String) (k' : JobKind) :
    getGen s.gens t' k' ≤ getGen (s.cancelPair t k).gens t' k' := by
  rw [cancelPair_gens]
  by_cases h : t = t' ∧ k = k'
  · rw [if_pos h, h.1, h.2]; omega
  · rw [if_neg h]

theorem schedule_jobs (s : Sched) (t : String) (k : JobKind) (f : Nat) :
    (s.schedule t k f).1.jobs =
      { handle := toString s.nextHandle, task_id := t, kind := k, fire_at := f,
        gen := getGen s.gens t k + 1 } :: (s.cancelPair t k).jobs := by
  simp [Sched.schedule, Sched.cancelPair, getGen_cons]

theorem schedule_gens (s : Sched) (t : String) (k : JobKind) (f : Nat)
    (t' : String) (k' : JobKind) :
    getGen (s.schedule t k f).1.gens t' k' =
      if t = t' ∧ k = k' then getGen s.gens t k + 1 else getGen s.gens t' k' := by
  simp [Sched.schedule, cancelPair_gens]

theorem schedule_gens_ge (s : Sched) (t : String) (k : JobKind) (f : Nat)
    (t' : String) (k' : JobKind) :
    getGen s.gens t' k' ≤ getGen (s.schedule t k f).1.gens t' k' := by
  rw [schedule_gens]
  by_cases h : t = t' ∧ k = k'
  · rw [if_pos h, h.1, h.2]; omega
  · rw [if_neg h]

theorem schedUniq_cancelPair {sc : Sched} (h : SchedUniq sc)
    (t : String) (k : JobKind) : SchedUniq (sc.cancelPair t k) := by
  intro j1 h1 j2 h2
  rw [mem_cancelPair_jobs] at h1 h2
  exact h j1 h1.1 j2 h2.1

theorem genCur_cancelPair {sc : Sched} (h : GenCur sc)
    (t : String) (k : JobKind) : GenCur (sc.cancelPair t k) := by
  intro j hj
  rw [mem_cancelPair_jobs] at hj
  rw [cancelPair_gens]
  rw [if_neg]
  · exact h j hj.1
  · intro hc
    exact hj.2 ⟨hc.1.symm, hc.2.symm⟩

theorem schedUniq_schedule {sc : Sched} (h : SchedUniq sc)
    (t : String) (k : JobKind) (f : Nat) : SchedUniq (sc.schedule t k f).1 := by
  intro j1 h1 j2 h2 ht hk
  rw [schedule_jobs, List.mem_cons, mem_cancelPair_jobs] at h1 h2
  rcases h1 with h1 | h1
  · rcases h2 with h2 | h2
    · rw [h1, h2]
    · exfalso
      apply h2.2
      rw [← ht, ← hk, h1]
      exact ⟨rfl, rfl⟩
  · rcases h2 with h2 | h2
    · exfalso
      apply h1.2
      rw [ht, hk, h2]
      exact ⟨rfl, rfl⟩
    · exact h j1 h1.1 j2 h2.1 ht hk

theorem genCur_schedule {sc : Sched} (h : GenCur sc)
    (t : String) (k : JobKind) (f : Nat) : GenCur (sc.schedule t k f).1 := by
  intro j hj
  rw [schedule_jobs, List.mem_cons, mem_cancelPair_jobs] at hj
  rcases hj with hj | hj
  · rw [hj, schedule_gens, if_pos ⟨rfl, rfl⟩]
  · rw [schedule_gens, if_neg]
    · exact h j hj.1
    · intro hc
      exact hj.2 ⟨hc.1.symm, hc.2.symm⟩

theorem schedUniq_cancelAll {sc : Sched} (h : SchedUniq sc) (t : String) :
    SchedUniq (sc.cancelAll t) :=
  schedUniq_cancelPair (schedUniq_cancelPair (schedUniq_cancelPair h t .pester)
    t .reminder) t .overdue

theorem genCur_cancelAll {sc : Sched} (h : GenCur sc) (t : String) :
    GenCur (sc.cancelAll t) :=
  genCur_cancelPair (genCur_cancelPair (genCur_cancelPair h t .pester)
    t .reminder) t .overdue

theorem mem_cancelAll_jobs {sc : Sched} {t : String} {j : Job} :
    j ∈ (sc.cancelAll t).jobs ↔ j ∈ sc.jobs ∧ ¬j.task_id = t := by
  unfold Sched.cancelAll
  rw [mem_cancelPair_jobs, mem_cancelPair_jobs, mem_cancelPair_jobs]
  constructor
  · rintro ⟨⟨⟨hm, hp⟩, hr⟩, ho⟩
    refine ⟨hm, fun ht => ?_⟩
    cases hk : j.kind
    · exact hp ⟨ht, hk⟩
    · exact hr ⟨ht, hk⟩
    · exact ho ⟨ht, hk⟩
  · rintro ⟨hm, ht⟩
    exact ⟨⟨⟨hm, fun hc => ht hc.1⟩, fun hc => ht hc.1⟩, fun hc => ht hc.1⟩

theorem cancelAll_gens (sc : Sched) (t : String) (t' : String) (k' : JobKind) :
    getGen (sc.cancelAll t).gens t' k' =
      if t = t' then getGen sc.gens t' k' + 1 else getGen sc.gens t' k' := by
  by_cases ht : t = t'
  · subst ht
    cases k' <;> simp [Sched.cancelAll, cancelPair_gens]
  · simp [Sched.cancelAll, cancelPair_gens, ht]

theorem foldl_scheduleOne_inv (l : List (JobKind × Nat)) (acc : Sched × Task)
    (h : SchedUniq acc.1 ∧ GenCur acc.1) :
    SchedUniq (l.foldl scheduleOne acc).1 ∧ GenCur (l.foldl scheduleOne acc).1 := by
  induction l generalizing acc with
  | nil => exact h
  | cons a l ih =>
    apply ih
    exact ⟨schedUniq_schedule h.1 acc.2.id a.1 a.2,
           genCur_schedule h.2 acc.2.id a.1 a.2⟩

theorem foldl_scheduleOne_gens_ge (l : List (JobKind × Nat)) (acc : Sched × Task)
    (t' : String) (k' : JobKind) :
    getGen acc.1.gens t' k' ≤ getGen (l.foldl scheduleOne acc).1.gens t' k' := by
  induction l generalizing acc with
  | nil => exact le_refl _
  | cons a l ih =>
    rw [List.foldl_cons]
    exact le_trans (schedule_gens_ge acc.1 acc.2.id a.1 a.2 t' k')
      (ih (scheduleOne acc a))

theorem reconcile_inv {sc : Sched} (h : SchedUniq sc ∧ GenCur sc)
    (cfg : Config) (t : Task) :
    SchedUniq (reconcile cfg sc t).1 ∧ GenCur (reconcile cfg sc t).1 := by
  unfold reconcile
  exact foldl_scheduleOne_inv _ _
    ⟨schedUniq_cancelAll h.1 t.id, genCur_cancelAll h.2 t.id⟩

theorem reconcile_gens_gt (cfg : Config) (sc : Sched) (t : Task) (k : JobKind) :
    getGen sc.gens t.id k < getGen (reconcile cfg sc t).1.gens t.id k := by
  unfold reconcile
  have h1 : getGen (sc.cancelAll t.id).gens t.id k ≤
      getGen ((deriveJobs cfg (clearJobFields t)).foldl scheduleOne
        (sc.cancelAll t.id, clearJobFields t)).1.gens t.id k :=
    foldl_scheduleOne_gens_ge (deriveJobs cfg (clearJobFields t))
      (sc.cancelAll t.id, clearJobFields t) t.id k
  have h2 : getGen (sc.cancelAll t.id).gens t.id k = getGen sc.gens t.id k + 1 := by
    rw [cancelAll_gens, if_pos rfl]
  omega

theorem createTask_ok {cfg : Config} {s : EngineState} {id list_id : String}
    {user_id guild_id : Nat} {title : String} {content : Option String}
    {pester : Option Nat} {due_at : Option Nat} {s' : EngineState}
    (he : createTask cfg s id list_id user_id guild_id title content pester
      due_at = .ok s') :
    findTask s.tasks id = none ∧
    s' = { s with
      tasks := (reconcile cfg s.sched
        (newTask id list_id user_id guild_id title content pester due_at)).2 ::
          s.tasks
      sched := (reconcile cfg s.sched
        (newTask id list_id user_id guild_id title content pester due_at)).1 } := by
  unfold createTask at he
  cases hf : findTask s.tasks id with
  | some t => rw [hf] at he; exact absurd he (by simp)
  | none =>
    rw [hf] at he
    simp only [Except.ok.injEq] at he
    exact ⟨rfl, he.symm⟩

theorem editTask_ok {cfg : Config} {s : EngineState} {tid : String}
    {due_at : Option Nat} {s' : EngineState}
    (he : editTask cfg s tid due_at = .ok s') :
    ∃ t, findTask s.tasks tid = some t ∧
    s' = { s with
      tasks := updTask s.tasks (reconcile cfg s.sched { t with due_at := due_at }).2
      sched := (reconcile cfg s.sched { t with due_at := due_at }).1 } := by
  unfold editTask at he
  cases hf : findTask s.tasks tid with
  | none => rw [hf] at he; exact absurd he (by simp)
  | some t =>
    rw [hf] at he
    simp only [Except.ok.injEq] at he
    exact ⟨t, rfl, he.symm⟩

theorem checkTask_ok {s : EngineState} {tid : String} {s' : EngineState}
    (he : checkTask s tid = .ok s') :
    ∃ t, findTask s.tasks tid = some t ∧ t.checked = false ∧
      s' = applyCheck s t := by
  unfold checkTask at he
  cases hf : findTask s.tasks tid with
  | none => rw [hf] at he; exact absurd he (by simp)
  | some t =>
    rw [hf] at he
    dsimp only at he
    refine ⟨t, rfl, ?_⟩
    by_cases hc : t.checked
    · rw [if_pos hc] at he; exact absurd he (by simp)
    · rw [if_neg hc] at he
      refine ⟨by simp [hc], ?_⟩
      by_cases ha : hasAcceptedRequest s.requests tid
      · rw [if_pos ha] at he
        cases hp : t.proof_id with
        | none => rw [hp] at he; exact absurd he (by simp)
        | some pid =>
          rw [hp] at he
          dsimp only at he
          cases hq : findProof s.proofs pid with
          | none => rw [hq] at he; exact absurd he (by simp)
          | some p =>
            rw [hq] at he
            dsimp only at he
            by_cases hap : p.approved
            · rw [if_pos hap] at he
              simp only [Except.ok.injEq] at he
              exact he.symm
            · rw [if_neg hap] at he; exact absurd he (by simp)
      · rw [if_neg ha] at he
        simp only [Except.ok.injEq] at he
        exact he.symm

theorem deleteTask_ok {s : EngineState} {tid : String} {s' : EngineState}
    (he : deleteTask s tid = .ok s') :
    (findTask s.tasks tid).isSome ∧ s' = deleteResult s tid := by
  unfold deleteTask at he
  cases hf : findTask s.tasks tid with
  | none => rw [hf] at he; exact absurd he (by simp)
  | some t =>
    rw [hf] at he
    simp only [Except.ok.injEq] at he
    exact ⟨rfl, he.symm⟩

theorem requestAccountability_ok {s : EngineState} {requesting requested : Nat}
    {tid : String} {s' : EngineState}
    (he : requestAccountability s requesting requested tid = .ok s') :
    (findTask s.tasks tid).isSome ∧ activeReq s.requests requested tid = false ∧
    s' = requestResult s requesting requested tid := by
  unfold requestAccountability at he
  cases hf : findTask s.tasks tid with
  | none => rw [hf] at he; exact absurd he (by simp)
  | some t =>
    rw [hf] at he
    dsimp only at he
    by_cases ha : activeReq s.requests requested tid
    · rw [if_pos ha] at he; exact absurd he (by simp)
    · rw [if_neg ha] at he
      simp only [Except.ok.injEq] at he
      exact ⟨rfl, by simp [ha], he.symm⟩

theorem respondAccountability_ok {s : EngineState} {requested : Nat}
    {tid : String} {accept : Bool} {s' : EngineState}
    (he : respondAccountability s requested tid accept = .ok s') :
    ∃ r, findReq s.requests requested tid = some r ∧
      r.status = RequestStatus.pending ∧
      s' = respondResult s requested tid accept := by
  unfold respondAccountability at he
  cases hf : findReq s.requests requested tid with
  | none => rw [hf] at he; exact absurd he (by simp)
  | some r =>
    rw [hf] at he
    dsimp only at he
    by_cases hp : r.status = RequestStatus.pending
    · rw [if_pos hp] at he
      simp only [Except.ok.injEq] at he
      exact ⟨r, rfl, hp, he.symm⟩
    · rw [if_neg hp] at he; exact absurd he (by simp)

theorem submitProof_ok {s : EngineState} {tid : String}
    {content image : Option String} {s' : EngineState}
    (he : submitProof s tid content image = .ok s') :
    ∃ t, findTask s.tasks tid = some t ∧
      hasAcceptedRequest s.requests tid = true ∧
      s' = submitResult s t content image := by
  unfold submitProof at he
  cases hf : findTask s.tasks tid with
  | none => rw [hf] at he; exact absurd he (by simp)
  | some t =>
    rw [hf] at he
    dsimp only at he
    by_cases ha : hasAcceptedRequest s.requests tid
    · rw [if_pos ha] at he
      simp only [Except.ok.injEq] at he
      exact ⟨t, rfl, by simp [ha], he.symm⟩
    · rw [if_neg ha] at he; exact absurd he (by simp)

theorem reviewProof_ok {s : EngineState} {uid : Nat} {pid : String}
    {approve : Bool} {s' : EngineState}
    (he : reviewProof s uid pid approve = .ok s') :
    ∃ p, findProof s.proofs pid = some p ∧ p.approved = false ∧
      s' = reviewResult s pid approve := by
  unfold reviewProof at he
  cases hf : findProof s.proofs pid with
  | none => rw [hf] at he; exact absurd he (by simp)
  | some p =>
    rw [hf] at he
    dsimp only at he
    by_cases hap : p.approved
    · rw [if_pos hap] at he; exact absurd he (by simp)
    · rw [if_neg hap] at he
      refine ⟨p, rfl, by simp [hap], ?_⟩
      cases ht : s.tasks.find? fun t => decide (t.proof_id = some pid) with
      | none => rw [ht] at he; exact absurd he (by simp)
      | some t =>
        rw [ht] at he
        dsimp only at he
        cases hr : s.requests.find? fun r =>
            decide (r.task_id = t.id ∧ r.status = RequestStatus.accepted) with
        | none => rw [hr] at he; exact absurd he (by simp)
        | some r =>
          rw [hr] at he
          dsimp only at he
          by_cases hu : r.requested_user = uid
          · rw [if_pos hu] at he
            simp only [Except.ok.injEq] at he
            exact he.symm
          · rw [if_neg hu] at he; exact absurd he (by simp)

theorem reqUniq_filter {rs : List AccountabilityRequest} (h : ReqUniq rs)
    (p : AccountabilityRequest → Bool) : ReqUniq (rs.filter p) :=
  fun r1 h1 r2 h2 => h r1 (List.mem_of_mem_filter h1) r2 (List.mem_of_mem_filter h2)

theorem reqUniq_requestResult {s : EngineState} (h : ReqUniq s.requests)
    (requesting requested : Nat) (tid : String) :
    ReqUniq (requestResult s requesting requested tid).requests := by
  intro r1 h1 r2 h2 hu ht
  simp only [requestResult, List.mem_cons, List.mem_filter,
    decide_eq_true_eq] at h1 h2
  rcases h1 with h1 | h1
  · rcases h2 with h2 | h2
    · rw [h1, h2]
    · exfalso
      apply h2.2
      rw [← hu, ← ht, h1]
      exact ⟨rfl, rfl⟩
  · rcases h2 with h2 | h2
    · exfalso
      apply h1.2
      rw [hu, ht, h2]
      exact ⟨rfl, rfl⟩
    · exact h r1 h1.1 r2 h2.1 hu ht

theorem reqUniq_respondResult {s : EngineState} (h : ReqUniq s.requests)
    (requested : Nat) (tid : String) (accept : Bool) :
    ReqUniq (respondResult s requested tid accept).requests := by
  intro r1 h1 r2 h2 hu ht
  simp only [respondResult, List.mem_map] at h1 h2
  obtain ⟨a, ha, rfl⟩ := h1
  obtain ⟨b, hb, rfl⟩ := h2
  have pu : ∀ x : AccountabilityRequest,
      ((if x.requested_user = requested ∧ x.task_id = tid then
          { x with status := if accept then RequestStatus.accepted
                             else RequestStatus.rejected }
        else x) : AccountabilityRequest).requested_user = x.requested_user := by
    intro x
    by_cases hx : x.requested_user = requested ∧ x.task_id = tid <;> simp [hx]
  have pt : ∀ x : AccountabilityRequest,
      ((if x.requested_user = requested ∧ x.task_id = tid then
          { x with status := if accept then RequestStatus.accepted
                             else RequestStatus.rejected }
        else x) : AccountabilityRequest).task_id = x.task_id := by
    intro x
    by_cases hx : x.requested_user = requested ∧ x.task_id = tid <;> simp [hx]
  have hab : a = b := by
    apply h a ha b hb
    · rw [← pu a, ← pu b]; exact hu
    · rw [← pt a, ← pt b]; exact ht
  rw [hab]

theorem schedUniq_filterJobs {sc : Sched} (h : SchedUniq sc) (p : Job → Bool) :
    SchedUniq { sc with jobs := sc.jobs.filter p } :=
  fun j1 h1 j2 h2 => h j1 (List.mem_of_mem_filter h1) j2 (List.mem_of_mem_filter h2)

theorem genCur_filterJobs {sc : Sched} (h : GenCur sc) (p : Job → Bool) :
    GenCur { sc with jobs := sc.jobs.filter p } :=
  fun j hj => h j (List.mem_of_mem_filter hj)

theorem inv_initState : Inv initState := by
  refine ⟨?_, ?_, ?_⟩ <;> intro x hx <;> exact absurd hx (List.not_mem_nil x)

theorem inv_dispatchFire {cfg : Config} {s : EngineState} {j : Job}
    {s' : EngineState} {r : FireResult} (h : Inv s)
    (he : dispatchFire cfg s j = (s', r)) : Inv s' := by
  unfold dispatchFire at he
  by_cases hg : j.gen = getGen s.sched.gens j.task_id j.kind
  · rw [if_neg (fun hc => hc hg)] at he
    cases hft : findTask s.tasks j.task_id with
    | none =>
      rw [hft] at he
      simp only [Prod.mk.injEq] at he
      obtain ⟨he1, -⟩ := he
      rw [← he1]; exact h
    | some t =>
      rw [hft] at he
      dsimp only at he
      have hsc1 : SchedUniq { s.sched with
            jobs := s.sched.jobs.filter fun j' => decide (¬j' = j) } ∧
          GenCur { s.sched with
            jobs := s.sched.jobs.filter fun j' => decide (¬j' = j) } :=
        ⟨schedUniq_filterJobs h.1 _, genCur_filterJobs h.2.1 _⟩
      by_cases hc : t.checked
      · rw [if_pos hc] at he
        simp only [Prod.mk.injEq] at he
        obtain ⟨he1, -⟩ := he
        rw [← he1]
        exact ⟨hsc1.1, hsc1.2, h.2.2⟩
      · rw [if_neg hc] at he
        cases hk : j.kind with
        | pester =>
          rw [hk] at he
          dsimp only at he
          by_cases hrem : 1 < t.pester.getD 0
          · rw [if_pos hrem] at he
            simp only [Prod.mk.injEq] at he
            obtain ⟨he1, -⟩ := he
            rw [← he1]
            exact ⟨schedUniq_schedule hsc1.1 t.id .pester _,
                   genCur_schedule hsc1.2 t.id .pester _, h.2.2⟩
          · rw [if_neg hrem] at he
            simp only [Prod.mk.injEq] at he
            obtain ⟨he1, -⟩ := he
            rw [← he1]
            exact ⟨hsc1.1, hsc1.2, h.2.2⟩
        | reminder =>
          rw [hk] at he
          simp only [Prod.mk.injEq] at he
          obtain ⟨he1, -⟩ := he
          rw [← he1]
          exact ⟨hsc1.1, hsc1.2, h.2.2⟩
        | overdue =>
          rw [hk] at he
          simp only [Prod.mk.injEq] at he
          obtain ⟨he1, -⟩ := he
          rw [← he1]
          exact ⟨hsc1.1, hsc1.2, h.2.2⟩
  · rw [if_pos hg] at he
    simp only [Prod.mk.injEq] at he
    obtain ⟨he1, -⟩ := he
    rw [← he1]; exact h

theorem step_inv {s s' : EngineState} (h : Inv s) (hstep : Step s s') : Inv s' := by
  cases hstep with
  | create cfg s id list_id user_id guild_id title content pester due_at s' he =>
    obtain ⟨-, rfl⟩ := createTask_ok he
    exact ⟨(reconcile_inv ⟨h.1, h.2.1⟩ cfg _).1,
           (reconcile_inv ⟨h.1, h.2.1⟩ cfg _).2, h.2.2⟩
  | edit cfg s tid due_at s' he =>
    obtain ⟨t, -, rfl⟩ := editTask_ok he
    exact ⟨(reconcile_inv ⟨h.1, h.2.1⟩ cfg _).1,
           (reconcile_inv ⟨h.1, h.2.1⟩ cfg _).2, h.2.2⟩
  | check s tid s' he =>
    obtain ⟨t, -, -, rfl⟩ := checkTask_ok he
    exact ⟨schedUniq_cancelAll h.1 t.id, genCur_cancelAll h.2.1 t.id, h.2.2⟩
  | delete s tid s' he =>
    obtain ⟨-, rfl⟩ := deleteTask_ok he
    exact ⟨schedUniq_cancelAll h.1 tid, genCur_cancelAll h.2.1 tid,
           reqUniq_filter h.2.2 _⟩
  | request s requesting requested tid s' he =>
    obtain ⟨-, -, rfl⟩ := requestAccountability_ok he
    exact ⟨h.1, h.2.1, reqUniq_requestResult h.2.2 requesting requested tid⟩
  | respond s requested tid accept s' he =>
    obtain ⟨r, -, -, rfl⟩ := respondAccountability_ok he
    exact ⟨h.1, h.2.1, reqUniq_respondResult h.2.2 requested tid accept⟩
  | submit s tid content image s' he =>
    obtain ⟨t, -, -, rfl⟩ := submitProof_ok he
    exact ⟨h.1, h.2.1, h.2.2⟩
  | review s uid pid approve s' he =>
    obtain ⟨p, -, -, rfl⟩ := reviewProof_ok he
    exact ⟨h.1, h.2.1, h.2.2⟩
  | fire cfg s j r s' he =>
    exact inv_dispatchFire h he

theorem reachable_inv {s : EngineState} (h : Reachable s) : Inv s := by
  unfold Reachable at h
  induction h with
  | refl => exact inv_initState
  | tail hr hstep ih => exact step_inv ih hstep

theorem findTask_some_id {ts : List Task} {tid : String} {t : Task}
    (h : findTask ts tid = some t) : t.id = tid := by
  have := List.find?_some h
  exact of_decide_eq_true this

theorem findTask_mem {ts : List Task} {tid : String} {t : Task}
    (h : findTask ts tid = some t) : t ∈ ts :=
  List.mem_of_find?_eq_some h

theorem findProof_some_id {ps : List Proof} {pid : String} {p : Proof}
    (h : findProof ps pid = some p) : p.id = pid := by
  have := List.find?_some h
  exact of_decide_eq_true this

theorem findReq_some_key {rs : List AccountabilityRequest} {rd : Nat}
    {tid : String} {r : AccountabilityRequest}
    (h : findReq rs rd tid = some r) :
    r.requested_user = rd ∧ r.task_id = tid := by
  have := List.find?_some h
  exact of_decide_eq_true this

theorem findTask_updTask {ts : List Task} {tid : String} {t t' : Task}
    (hf : findTask ts tid = some t) (hid : t'.id = tid) :
    findTask (updTask ts t') tid = some t' := by
  induction ts with
  | nil => simp [findTask] at hf
  | cons u us ih =>
    by_cases hu : u.id = tid
    · have h1 : u.id = t'.id := by rw [hu, hid]
      simp [findTask, updTask, h1, hid]
    · have h1 : ¬u.id = t'.id := by rw [hid]; exact hu
      have hf' : findTask us tid = some t := by
        simpa [findTask, List.find?_cons, hu] using hf
      simpa [findTask, updTask, h1, hu] using ih hf'

theorem findReq_map {rs : List AccountabilityRequest} {rd : Nat} {tid : String}
    {r : AccountabilityRequest} (hr : findReq rs rd tid = some r)
    (f : AccountabilityRequest → AccountabilityRequest)
    (hf : ∀ x, (f x).requested_user = x.requested_user ∧
      (f x).task_id = x.task_id) :
    findReq (rs.map f) rd tid = some (f r) := by
  induction rs with
  | nil => simp [findReq] at hr
  | cons a rest ih =>
    by_cases ha : a.requested_user = rd ∧ a.task_id = tid
    · have hra : r = a := by
        have : some a = some r := by simpa [findReq, ha] using hr
        exact (Option.some.injEq _ _ ▸ this).symm
      have hfa : (f a).requested_user = rd ∧ (f a).task_id = tid := by
        rw [(hf a).1, (hf a).2]; exact ha
      simp [findReq, hfa, hra]
    · have hfa : ¬((f a).requested_user = rd ∧ (f a).task_id = tid) := by
        rw [(hf a).1, (hf a).2]; exact ha
      have hr' : findReq rest rd tid = some r := by
        simpa [findReq, ha] using hr
      simpa [findReq, hfa] using ih hr'

theorem findProof_map {ps : List Proof} {pid : String} {p : Proof}
    (hp : findProof ps pid = some p) (f : Proof → Proof)
    (hf : ∀ x, (f x).id = x.id) :
    findProof (ps.map f) pid = some (f p) := by
  induction ps with
  | nil => simp [findProof] at hp
  | cons a rest ih =>
    by_cases ha : a.id = pid
    · have hpa : p = a := by
        have : some a = some p := by simpa [findProof, ha] using hp
        exact (Option.some.injEq _ _ ▸ this).symm
      have hfa : (f a).id = pid := by rw [hf a]; exact ha
      simp [findProof, hfa, hpa]
    · have hfa : ¬(f a).id = pid := by rw [hf a]; exact ha
      have hp' : findProof rest pid = some p := by
        simpa [findProof, ha] using hp
      simpa [findProof, hfa] using ih hp'

theorem dispatchFire_proofs (cfg : Config) (s : EngineState) (j : Job) :
    (dispatchFire cfg s j).1.proofs = s.proofs := by
  unfold dispatchFire
  by_cases hg : j.gen = getGen s.sched.gens j.task_id j.kind
  · rw [if_neg (fun hc => hc hg)]
    cases hft : findTask s.tasks j.task_id with
    | none => rfl
    | some t =>
      dsimp only
      by_cases hc : t.checked
      · rw [if_pos hc]
      · rw [if_neg hc]
        cases hk : j.kind with
        | pester =>
          dsimp only
          by_cases hrem : 1 < t.pester.getD 0
          · rw [if_pos hrem]
          · rw [if_neg hrem]
        | reminder => rfl
        | overdue => rfl
  · rw [if_pos hg]

theorem taskCheckedIn_applyCheck {s : EngineState} {tid : String} {t : Task}
    (ht : findTask s.tasks tid = some t) :
    taskCheckedIn (applyCheck s t) tid = true := by
  have hid0 : t.id = tid := findTask_some_id ht
  have hid : (checkedTask t).id = tid := hid0
  have h1 : findTask (updTask s.tasks (checkedTask t)) tid =
      some (checkedTask t) := findTask_updTask ht hid
  have h2 : (applyCheck s t).tasks = updTask s.tasks (checkedTask t) := rfl
  rw [taskCheckedIn, h2, h1]
  rfl

/-- C1: for a task that exists and is not yet checked, when an Accepted
AccountabilityRequest is attached, `checkTask` reaches the Checked state
exactly when the task's current linked Proof exists and is approved; with no
Accepted request attached (no partner, or only a Rejected one), `checkTask`
checks the task unconditionally. -/
theorem checkTask_gate (s : EngineState) (tid : String) (t : Task)
    (ht : findTask s.tasks tid = some t) (hnc : t.checked = false) :
    (hasAcceptedRequest s.requests tid = true →
      ((∃ s', checkTask s tid = .ok s' ∧ taskCheckedIn s' tid = true) ↔
        ∃ pid p, t.proof_id = some pid ∧ findProof s.proofs pid = some p ∧
          p.approved = true)) ∧
    (hasAcceptedRequest s.requests tid = false →
      ∃ s', checkTask s tid = .ok s' ∧ taskCheckedIn s' tid = true) := by
  have hnc' : ¬t.checked = true := by simp [hnc]
  constructor
  · intro ha
    constructor
    · rintro ⟨s', hok, -⟩
      unfold checkTask at hok
      rw [ht] at hok
      dsimp only at hok
      rw [if_neg hnc', if_pos ha] at hok
      cases hp : t.proof_id with
      | none => rw [hp] at hok; exact absurd hok (by simp)
      | some pid =>
        rw [hp] at hok
        dsimp only at hok
        cases hq : findProof s.proofs pid with
        | none => rw [hq] at hok; exact absurd hok (by simp)
        | some p =>
          rw [hq] at hok
          dsimp only at hok
          by_cases hap : p.approved
          · exact ⟨pid, p, rfl, hq, hap⟩
          · rw [if_neg hap] at hok; exact absurd hok (by simp)
    · rintro ⟨pid, p, hp, hq, hap⟩
      refine ⟨applyCheck s t, ?_, taskCheckedIn_applyCheck ht⟩
      unfold checkTask
      rw [ht]
      dsimp only
      rw [if_neg hnc', if_pos ha, hp]
      dsimp only
      rw [hq]
      dsimp only
      rw [if_pos hap]
  · intro ha
    refine ⟨applyCheck s t, ?_, taskCheckedIn_applyCheck ht⟩
    unfold checkTask
    rw [ht]
    dsimp only
    rw [if_neg hnc', if_neg (by simp [ha])]

theorem checkTask_gate_witness :
    ∃ s', checkTask exC1s "t1" = .ok s' ∧ taskCheckedIn s' "t1" = true :=
  ((checkTask_gate exC1s "t1" exC1t rfl rfl).1 rfl).mpr ⟨"p1", exC1p, rfl, rfl, rfl⟩

/-- C2: in every reachable state the scheduler store holds at most one live
job handle per (task, kind) pair; scheduling a new job for a pair keeps the
store unique for that pair (the stale handle is cancelled first) and strictly
invalidates every stored handle's generation for that pair. -/
theorem job_handles_unique (s : EngineState) (hs : Reachable s) :
    SchedUniq s.sched ∧
    (∀ t k f, SchedUniq (s.sched.schedule t k f).1) ∧
    (∀ t k f j, j ∈ s.sched.jobs → j.task_id = t → j.kind = k →
      j.gen < getGen (s.sched.schedule t k f).1.gens t k) := by
  have h := reachable_inv hs
  refine ⟨h.1, fun t k f => schedUniq_schedule h.1 t k f, ?_⟩
  intro t k f j hj hjt hjk
  have hg := h.2.1 j hj
  rw [schedule_gens, if_pos ⟨rfl, rfl⟩]
  rw [hg, hjt, hjk]
  omega

theorem exC2s_reachable : Reachable exC2s :=
  Relation.ReflTransGen.single
    (Step.create cfgC2 initState "t1" "l1" 1 1 "w" none none (some 100) exC2s rfl)

theorem job_handles_unique_witness :
    Reachable exC2s ∧ SchedUniq exC2s.sched :=
  ⟨exC2s_reachable, (job_handles_unique exC2s exC2s_reachable).1⟩

theorem dispatchFire_stale {cfg : Config} {s : EngineState} {j : Job}
    (h : j.gen ≠ getGen s.sched.gens j.task_id j.kind) :
    dispatchFire cfg s j = (s, FireResult.staleDropped) := by
  unfold dispatchFire
  rw [if_pos h]

theorem cancelAll_gens_ge (sc : Sched) (t : String) (t' : String)
    (k' : JobKind) :
    getGen sc.gens t' k' ≤ getGen (sc.cancelAll t).gens t' k' := by
  rw [cancelAll_gens]
  by_cases h : t = t'
  · rw [if_pos h]; omega
  · rw [if_neg h]

theorem reconcile_gens_ge (cfg : Config) (sc : Sched) (t : Task)
    (t' : String) (k' : JobKind) :
    getGen sc.gens t' k' ≤ getGen (reconcile cfg sc t).1.gens t' k' := by
  unfold reconcile
  have h1 : getGen (sc.cancelAll t.id).gens t' k' ≤
      getGen ((deriveJobs cfg (clearJobFields t)).foldl scheduleOne
        (sc.cancelAll t.id, clearJobFields t)).1.gens t' k' :=
    foldl_scheduleOne_gens_ge (deriveJobs cfg (clearJobFields t))
      (sc.cancelAll t.id, clearJobFields t) t' k'
  have h2 := cancelAll_gens_ge sc t.id t' k'
  omega

theorem dispatchFire_gens_ge (cfg : Config) (s : EngineState) (j : Job)
    (t' : String) (k' : JobKind) :
    getGen s.sched.gens t' k' ≤
      getGen (dispatchFire cfg s j).1.sched.gens t' k' := by
  unfold dispatchFire
  by_cases hg : j.gen = getGen s.sched.gens j.task_id j.kind
  · rw [if_neg (fun hc => hc hg)]
    cases hft : findTask s.tasks j.task_id with
    | none => exact le_refl _
    | some t =>
      dsimp only
      by_cases hc : t.checked
      · rw [if_pos hc]
      · rw [if_neg hc]
        cases hk : j.kind with
        | pester =>
          dsimp only
          by_cases hrem : 1 < t.pester.getD 0
          · rw [if_pos hrem]
            exact schedule_gens_ge _ t.id .pester
              (j.fire_at + cfg.pesterInterval) t' k'
          · rw [if_neg hrem]
        | reminder => exact le_refl _
        | overdue => exact le_refl _
  · rw [if_pos hg]

theorem step_gens_mono {s s' : EngineState} (h : Step s s') (t' : String)
    (k' : JobKind) :
    getGen s.sched.gens t' k' ≤ getGen s'.sched.gens t' k' := by
  cases h with
  | create cfg s id list_id user_id guild_id title content pester due_at s' he =>
    obtain ⟨-, rfl⟩ := createTask_ok he
    exact reconcile_gens_ge cfg s.sched _ t' k'
  | edit cfg s tid due_at s' he =>
    obtain ⟨t, -, rfl⟩ := editTask_ok he
    exact reconcile_gens_ge cfg s.sched _ t' k'
  | check s tid s' he =>
    obtain ⟨t, -, -, rfl⟩ := checkTask_ok he
    exact cancelAll_gens_ge s.sched t.id t' k'
  | delete s tid s' he =>
    obtain ⟨-, rfl⟩ := deleteTask_ok he
    exact cancelAll_gens_ge s.sched tid t' k'
  | request s requesting requested tid s' he =>
    obtain ⟨-, -, rfl⟩ := requestAccountability_ok he
    exact le_refl _
  | respond s requested tid accept s' he =>
    obtain ⟨r, -, -, rfl⟩ := respondAccountability_ok he
    exact le_refl _
  | submit s tid content image s' he =>
    obtain ⟨t, -, -, rfl⟩ := submitProof_ok he
    exact le_refl _
  | review s uid pid approve s' he =>
    obtain ⟨p, -, -, rfl⟩ := reviewProof_ok he
    exact le_refl _
  | fire cfg s j r s' he =>
    have hm := dispatchFire_gens_ge cfg s j t' k'
    rw [he] at hm
    exact hm

theorem steps_gens_mono {a b : EngineState}
    (h : Relation.ReflTransGen Step a b) (t' : String) (k' : JobKind) :
    getGen a.sched.gens t' k' ≤ getGen b.sched.gens t' k' := by
  induction h with
  | refl => exact le_refl _
  | tail hr hstep ih => exact le_trans ih (step_gens_mono hstep t' k')

/-- C3: after a due-date edit of a task, any handle of that task that was
live before the edit has a superseded generation, and the generation counter
of its (task, kind) pair never decreases along any continuation of the
execution; so at every later point — immediately after the edit or after any
number of further steps — the Dispatcher drops a firing of that handle
without delivering a notification or changing the state. -/
theorem reschedule_drops_stale (cfg cfg2 : Config) (s s' s'' : EngineState)
    (tid : String) (d : Option Nat) (j : Job) (hs : Reachable s)
    (hj : j ∈ s.sched.jobs) (hjt : j.task_id = tid)
    (he : editTask cfg s tid d = .ok s')
    (hlater : Relation.ReflTransGen Step s' s'') :
    dispatchFire cfg2 s'' j = (s'', FireResult.staleDropped) ∧
    (dispatchFire cfg2 s'' j).1.notifications = s''.notifications := by
  have hInv := reachable_inv hs
  have hgen : j.gen = getGen s.sched.gens j.task_id j.kind := hInv.2.1 j hj
  obtain ⟨t, ht, hs'⟩ := editTask_ok he
  have hid0 : t.id = tid := findTask_some_id ht
  have hgt : getGen s.sched.gens tid j.kind <
      getGen (reconcile cfg s.sched { t with due_at := d }).1.gens tid j.kind := by
    have h0 := reconcile_gens_gt cfg s.sched { t with due_at := d } j.kind
    rw [← hid0]
    exact h0
  have hsched : s'.sched = (reconcile cfg s.sched { t with due_at := d }).1 := by
    rw [hs']
  have hmono : getGen s'.sched.gens tid j.kind ≤
      getGen s''.sched.gens tid j.kind := steps_gens_mono hlater tid j.kind
  rw [hsched] at hmono
  have hne : j.gen ≠ getGen s''.sched.gens j.task_id j.kind := by
    intro hcontra
    rw [hgen, hjt] at hcontra
    omega
  have hd : dispatchFire cfg2 s'' j = (s'', FireResult.staleDropped) :=
    dispatchFire_stale hne
  exact ⟨hd, by rw [hd]⟩

theorem exC3a_reachable : Reachable exC3a :=
  Relation.ReflTransGen.single
    (Step.create cfgC2 initState "t1" "l1" 1 1 "w" none none (some 100) exC3a rfl)

theorem exC3b_to_exC3c : Relation.ReflTransGen Step exC3b exC3c :=
  Relation.ReflTransGen.single
    (Step.create cfgC2 exC3b "t2" "l1" 1 1 "w" none none (some 300) exC3c rfl)

theorem reschedule_drops_stale_witness :
    dispatchFire cfgC2 exC3c exC3j = (exC3c, FireResult.staleDropped) ∧
    (dispatchFire cfgC2 exC3c exC3j).1.notifications = exC3c.notifications :=
  reschedule_drops_stale cfgC2 cfgC2 exC3a exC3b exC3c "t1" (some 200) exC3j
    exC3a_reachable (by decide) rfl rfl exC3b_to_exC3c

/-- C4: in every reachable state there is at most one AccountabilityRequest
per (requested_user, task_id) pair, and for an existing task `request` fails
with Conflict exactly when an active (Pending or Accepted) request exists for
the pair, succeeding with a fresh Pending request otherwise. -/
theorem request_unique_or_conflict (s : EngineState) (hs : Reachable s)
    (requesting requested : Nat) (tid : String)
    (ht : (findTask s.tasks tid).isSome = true) :
    ReqUniq s.requests ∧
    (activeReq s.requests requested tid = true →
      requestAccountability s requesting requested tid = .error .conflict) ∧
    (activeReq s.requests requested tid = false →
      ∃ s', requestAccountability s requesting requested tid = .ok s' ∧
        findReq s'.requests requested tid = some
          { requesting_user := requesting
            requested_user := requested
            task_id := tid
            status := RequestStatus.pending }) := by
  refine ⟨(reachable_inv hs).2.2, ?_, ?_⟩
  · intro ha
    unfold requestAccountability
    cases hf : findTask s.tasks tid with
    | none => rw [hf] at ht; exact absurd ht (by simp)
    | some t =>
      dsimp only
      rw [if_pos ha]
  · intro ha
    cases hf : findTask s.tasks tid with
    | none => rw [hf] at ht; exact absurd ht (by simp)
    | some t =>
      refine ⟨requestResult s requesting requested tid, ?_, ?_⟩
      · unfold requestAccountability
        rw [hf]
        dsimp only
        rw [if_neg (by simp [ha])]
      · simp [findReq, requestResult]

theorem exC4s_reachable : Reachable exC4s :=
  Relation.ReflTransGen.single
    (Step.create cfgC2 initState "t1" "l1" 1 1 "w" none none none exC4s rfl)

theorem request_unique_or_conflict_witness :
    ∃ s', requestAccountability exC4s 1 2 "t1" = .ok s' ∧
      findReq s'.requests 2 "t1" = some exC4req :=
  (request_unique_or_conflict exC4s exC4s_reachable 1 2 "t1" (by decide)).2.2 rfl

/-- C5: `respond` succeeds exactly from Pending, writing Accepted or
Rejected; a second respond against the same request fails with Conflict, the
stored status remaining whatever the first call wrote. -/
theorem respond_pending_only (s : EngineState) (requested : Nat) (tid : String)
    (accept accept2 : Bool) (r : AccountabilityRequest)
    (hr : findReq s.requests requested tid = some r) :
    (r.status = RequestStatus.pending →
      ∃ s', respondAccountability s requested tid accept = .ok s' ∧
        findReq s'.requests requested tid = some { r with
          status := if accept then RequestStatus.accepted
                    else RequestStatus.rejected } ∧
        respondAccountability s' requested tid accept2 = .error .conflict) ∧
    (¬r.status = RequestStatus.pending →
      respondAccountability s requested tid accept = .error .conflict) := by
  constructor
  · intro hp
    have hk := findReq_some_key hr
    have hmap := findReq_map hr
      (fun r' => if r'.requested_user = requested ∧ r'.task_id = tid then
        { r' with status := if accept then RequestStatus.accepted
                            else RequestStatus.rejected }
       else r')
      (by
        intro x
        by_cases hx : x.requested_user = requested ∧ x.task_id = tid <;>
          simp [hx])
    dsimp only at hmap
    rw [if_pos hk] at hmap
    have hfind : findReq (respondResult s requested tid accept).requests
        requested tid = some { r with
          status := if accept then RequestStatus.accepted
                    else RequestStatus.rejected } := hmap
    refine ⟨respondResult s requested tid accept, ?_, hfind, ?_⟩
    · unfold respondAccountability
      rw [hr]
      dsimp only
      rw [if_pos hp]
    · unfold respondAccountability
      rw [hfind]
      dsimp only
      rw [if_neg (by cases accept <;> simp)]
  · intro hp
    unfold respondAccountability
    rw [hr]
    dsimp only
    rw [if_neg hp]

theorem respond_pending_only_witness :
    ∃ s', respondAccountability exC5s 2 "t1" true = .ok s' ∧
      findReq s'.requests 2 "t1" = some { exC5req with
        status := if true then RequestStatus.accepted
                  else RequestStatus.rejected } ∧
      respondAccountability s' 2 "t1" true = .error .conflict :=
  (respond_pending_only exC5s 2 "t1" true true exC5req rfl).1 rfl

/-- C6: a newly submitted Proof carries `approved = false` and is the only
proof `submitProof` adds; approving sets `approved = true`, rejecting leaves
it false; and every other operation (create, edit, check, delete, request,
respond, and the Dispatcher) leaves the proof store untouched. -/
theorem proof_approved_lifecycle :
    (∀ s tid content image s', submitProof s tid content image = .ok s' →
      findProof s'.proofs (toString s.nextProofId) =
        some (newProof s content image) ∧
      ∀ q ∈ s'.proofs, q ∈ s.proofs ∨ q = newProof s content image) ∧
    (∀ s uid pid s', reviewProof s uid pid true = .ok s' →
      ∃ p, findProof s.proofs pid = some p ∧
        findProof s'.proofs pid = some { p with approved := true }) ∧
    (∀ s uid pid s', reviewProof s uid pid false = .ok s' →
      ∃ p, findProof s.proofs pid = some p ∧ p.approved = false ∧
        findProof s'.proofs pid = some { p with approved := false }) ∧
    (∀ cfg s id list_id user_id guild_id title content pester due_at s',
      createTask cfg s id list_id user_id guild_id title content pester due_at
        = .ok s' → s'.proofs = s.proofs) ∧
    (∀ cfg s tid due_at s', editTask cfg s tid due_at = .ok s' →
      s'.proofs = s.proofs) ∧
    (∀ s tid s', checkTask s tid = .ok s' → s'.proofs = s.proofs) ∧
    (∀ s tid s', deleteTask s tid = .ok s' → s'.proofs = s.proofs) ∧
    (∀ s requesting requested tid s',
      requestAccountability s requesting requested tid = .ok s' →
      s'.proofs = s.proofs) ∧
    (∀ s requested tid accept s',
      respondAccountability s requested tid accept = .ok s' →
      s'.proofs = s.proofs) ∧
    (∀ cfg s j, (dispatchFire cfg s j).1.proofs = s.proofs) := by
  refine ⟨?_, ?_, ?_, ?_, ?_, ?_, ?_, ?_, ?_, dispatchFire_proofs⟩
  · intro s tid content image s' he
    obtain ⟨t, -, -, rfl⟩ := submitProof_ok he
    constructor
    · simp [findProof, submitResult, newProof]
    · intro q hq
      have hq2 : q ∈ newProof s content image ::
          (match t.proof_id with
           | none => s.proofs
           | some old => s.proofs.filter fun x => decide (¬x.id = old)) := hq
      rcases List.mem_cons.1 hq2 with hq' | hq'
      · exact Or.inr hq'
      · refine Or.inl ?_
        cases hpid : t.proof_id with
        | none => rw [hpid] at hq'; exact hq'
        | some old =>
          rw [hpid] at hq'
          exact List.mem_of_mem_filter hq'
  · intro s uid pid s' he
    obtain ⟨p, hp, -, rfl⟩ := reviewProof_ok he
    have hfp := findProof_map hp
      (fun q => if q.id = pid then { q with approved := true } else q)
      (by intro x; by_cases hx : x.id = pid <;> simp [hx])
    dsimp only at hfp
    rw [if_pos (findProof_some_id hp)] at hfp
    exact ⟨p, hp, hfp⟩
  · intro s uid pid s' he
    obtain ⟨p, hp, hap, rfl⟩ := reviewProof_ok he
    have hfp := findProof_map hp
      (fun q => if q.id = pid then { q with approved := false } else q)
      (by intro x; by_cases hx : x.id = pid <;> simp [hx])
    dsimp only at hfp
    rw [if_pos (findProof_some_id hp)] at hfp
    exact ⟨p, hp, hap, hfp⟩
  · intro cfg s id list_id user_id guild_id title content pester due_at s' he
    obtain ⟨-, rfl⟩ := createTask_ok he
    rfl
  · intro cfg s tid due_at s' he
    obtain ⟨t, -, rfl⟩ := editTask_ok he
    rfl
  · intro s tid s' he
    obtain ⟨t, -, -, rfl⟩ := checkTask_ok he
    rfl
  · intro s tid s' he
    obtain ⟨-, rfl⟩ := deleteTask_ok he
    rfl
  · intro s requesting requested tid s' he
    obtain ⟨-, -, rfl⟩ := requestAccountability_ok he
    rfl
  · intro s requested tid accept s' he
    obtain ⟨r, -, -, rfl⟩ := respondAccountability_ok he
    rfl

theorem proof_approved_lifecycle_witness :
    findProof (submitResult exC6s exC6t none none).proofs "0" = some
      { id := "0", content := none, image := none, approved := false } :=
  (proof_approved_lifecycle.1 exC6s "t1" none none
    (submitResult exC6s exC6t none none) rfl).1

/-- C7: after a successful `deleteTask`, the scheduler store holds no handle
for the deleted task id (so `due_jobs` can never yield one), no
AccountabilityRequest references the id, the task itself is gone, and the
proof rows are merely detached, not mutated. -/
theorem delete_cascades (s : EngineState) (tid : String) (s' : EngineState)
    (he : deleteTask s tid = .ok s') :
    (∀ j ∈ s'.sched.jobs, ¬j.task_id = tid) ∧
    (∀ now, ∀ j ∈ s'.sched.dueJobs now, ¬j.task_id = tid) ∧
    (∀ r ∈ s'.requests, ¬r.task_id = tid) ∧
    (∀ t ∈ s'.tasks, ¬t.id = tid) ∧
    s'.proofs = s.proofs := by
  obtain ⟨-, rfl⟩ := deleteTask_ok he
  refine ⟨?_, ?_, ?_, ?_, rfl⟩
  · intro j hj
    exact (mem_cancelAll_jobs.1 hj).2
  · intro now j hj
    exact (mem_cancelAll_jobs.1 (List.mem_of_mem_filter hj)).2
  · intro r hrr
    have h2 := (List.mem_filter.1 hrr).2
    exact of_decide_eq_true h2
  · intro t htt
    have h2 := (List.mem_filter.1 htt).2
    exact of_decide_eq_true h2

theorem delete_cascades_witness :
    deleteTask exC7s "t1" = .ok (deleteResult exC7s "t1") ∧
    (deleteResult exC7s "t1").proofs = exC7s.proofs :=
  ⟨rfl, (delete_cascades exC7s "t1" (deleteResult exC7s "t1") rfl).2.2.2.2⟩

/-- C8: every exposed operation returns a result discriminated as success or
one of the closed error kinds NotFound, Conflict, GateNotSatisfied, StaleJob,
DeliveryFailure — never an untyped or free-text failure. -/
theorem operations_return_typed_results :
    (∀ cfg s id list_id user_id guild_id title content pester due_at,
      (∃ s', createTask cfg s id list_id user_id guild_id title content pester
        due_at = .ok s') ∨
      (∃ e, createTask cfg s id list_id user_id guild_id title content pester
        due_at = .error e ∧ (e = ApiError.notFound ∨ e = ApiError.conflict ∨
        e = ApiError.gateNotSatisfied ∨ e = ApiError.staleJob ∨
        e = ApiError.deliveryFailure))) ∧
    (∀ cfg s tid due_at, (∃ s', editTask cfg s tid due_at = .ok s') ∨
      (∃ e, editTask cfg s tid due_at = .error e ∧ (e = ApiError.notFound ∨
        e = ApiError.conflict ∨ e = ApiError.gateNotSatisfied ∨
        e = ApiError.staleJob ∨ e = ApiError.deliveryFailure))) ∧
    (∀ s tid, (∃ s', checkTask s tid = .ok s') ∨
      (∃ e, checkTask s tid = .error e ∧ (e = ApiError.notFound ∨
        e = ApiError.conflict ∨ e = ApiError.gateNotSatisfied ∨
        e = ApiError.staleJob ∨ e = ApiError.deliveryFailure))) ∧
    (∀ s tid, (∃ s', deleteTask s tid = .ok s') ∨
      (∃ e, deleteTask s tid = .error e ∧ (e = ApiError.notFound ∨
        e = ApiError.conflict ∨ e = ApiError.gateNotSatisfied ∨
        e = ApiError.staleJob ∨ e = ApiError.deliveryFailure))) ∧
    (∀ s requesting requested tid,
      (∃ s', requestAccountability s requesting requested tid = .ok s') ∨
      (∃ e, requestAccountability s requesting requested tid = .error e ∧
        (e = ApiError.notFound ∨ e = ApiError.conflict ∨
        e = ApiError.gateNotSatisfied ∨ e = ApiError.staleJob ∨
        e = ApiError.deliveryFailure))) ∧
    (∀ s requested tid accept,
      (∃ s', respondAccountability s requested tid accept = .ok s') ∨
      (∃ e, respondAccountability s requested tid accept = .error e ∧
        (e = ApiError.notFound ∨ e = ApiError.conflict ∨
        e = ApiError.gateNotSatisfied ∨ e = ApiError.staleJob ∨
        e = ApiError.deliveryFailure))) ∧
    (∀ s tid content image,
      (∃ s', submitProof s tid content image = .ok s') ∨
      (∃ e, submitProof s tid content image = .error e ∧
        (e = ApiError.notFound ∨ e = ApiError.conflict ∨
        e = ApiError.gateNotSatisfied ∨ e = ApiError.staleJob ∨
        e = ApiError.deliveryFailure))) ∧
    (∀ s uid pid approve,
      (∃ s', reviewProof s uid pid approve = .ok s') ∨
      (∃ e, reviewProof s uid pid approve = .error e ∧
        (e = ApiError.notFound ∨ e = ApiError.conflict ∨
        e = ApiError.gateNotSatisfied ∨ e = ApiError.staleJob ∨
        e = ApiError.deliveryFailure))) := by
  refine ⟨?_, ?_, ?_, ?_, ?_, ?_, ?_, ?_⟩
  · intro cfg s id list_id user_id guild_id title content pester due_at
    cases hr : createTask cfg s id list_id user_id guild_id title content
        pester due_at with
    | ok s' => exact Or.inl ⟨s', rfl⟩
    | error e => exact Or.inr ⟨e, rfl, by cases e <;> simp⟩
  · intro cfg s tid due_at
    cases hr : editTask cfg s tid due_at with
    | ok s' => exact Or.inl ⟨s', rfl⟩
    | error e => exact Or.inr ⟨e, rfl, by cases e <;> simp⟩
  · intro s tid
    cases hr : checkTask s tid with
    | ok s' => exact Or.inl ⟨s', rfl⟩
    | error e => exact Or.inr ⟨e, rfl, by cases e <;> simp⟩
  · intro s tid
    cases hr : deleteTask s tid with
    | ok s' => exact Or.inl ⟨s', rfl⟩
    | error e => exact Or.inr ⟨e, rfl, by cases e <;> simp⟩
  · intro s requesting requested tid
    cases hr : requestAccountability s requesting requested tid with
    | ok s' => exact Or.inl ⟨s', rfl⟩
    | error e => exact Or.inr ⟨e, rfl, by cases e <;> simp⟩
  · intro s requested tid accept
    cases hr : respondAccountability s requested tid accept with
    | ok s' => exact Or.inl ⟨s', rfl⟩
    | error e => exact Or.inr ⟨e, rfl, by cases e <;> simp⟩
  · intro s tid content image
    cases hr : submitProof s tid content image with
    | ok s' => exact Or.inl ⟨s', rfl⟩
    | error e => exact Or.inr ⟨e, rfl, by cases e <;> simp⟩
  · intro s uid pid approve
    cases hr : reviewProof s uid pid approve with
    | ok s' => exact Or.inl ⟨s', rfl⟩
    | error e => exact Or.inr ⟨e, rfl, by cases e <;> simp⟩

/-- C9: a task whose `due_at` is absent or zero ("no due date") derives no
Reminder, Overdue or Pester job; a real (nonzero) due date on an unchecked
task always derives jobs; and creating a task with absent or zero `due_at`
leaves no scheduled job for it. -/
theorem no_due_date_no_jobs :
    (∀ cfg t, (t.due_at = none ∨ t.due_at = some 0) → deriveJobs cfg t = []) ∧
    (∀ cfg t d, t.due_at = some d → d ≠ 0 → t.checked = false →
      deriveJobs cfg t ≠ []) ∧
    (∀ cfg s id list_id user_id guild_id title content pester due_at s',
      (due_at = none ∨ due_at = some 0) →
      createTask cfg s id list_id user_id guild_id title content pester due_at
        = .ok s' →
      ∀ j ∈ s'.sched.jobs, ¬j.task_id = id) := by
  refine ⟨?_, ?_, ?_⟩
  · intro cfg t hdue
    rcases hdue with h | h <;>
      by_cases hc : t.checked <;> simp [deriveJobs, hc, h]
  · intro cfg t d hd hdne hc
    simp [deriveJobs, hc, hd, hdne]
  · intro cfg s id list_id user_id guild_id title content pester due_at s'
      hdue he
    obtain ⟨-, rfl⟩ := createTask_ok he
    intro j hj
    have hderive : deriveJobs cfg (clearJobFields
        (newTask id list_id user_id guild_id title content pester due_at)) = [] := by
      rcases hdue with rfl | rfl <;>
        simp [deriveJobs, clearJobFields, newTask]
    have hjob : j ∈ (s.sched.cancelAll
        (newTask id list_id user_id guild_id title content pester due_at).id).jobs := by
      have hs : (reconcile cfg s.sched
          (newTask id list_id user_id guild_id title content pester due_at)).1 =
          s.sched.cancelAll
            (newTask id list_id user_id guild_id title content pester due_at).id := by
        unfold reconcile
        rw [hderive]
        rfl
      rw [← hs]
      exact hj
    exact (mem_cancelAll_jobs.1 hjob).2

theorem no_due_date_no_jobs_witness :
    deriveJobs cfgC2 exC9t = [] :=
  no_due_date_no_jobs.1 cfgC2 exC9t (Or.inr rfl)

/-- C10: `Client.request` returns the parsed body of the HTTP response
unconditionally — its result is exactly `resp.json()` of the fetched URL and
does not depend on the status code or status text, and its return type is the
ordinary `GenericResponse`, with no separate error path. -/
theorem client_request_ignores_status (fetch fetch2 : String → HttpResponse)
    (c : Client) (endpoint : String)
    (hbody : ∀ u, (fetch u).body = (fetch2 u).body) :
    Client.request fetch c endpoint =
      (fetch (c.base_url ++ "/" ++ endpoint)).body ∧
    Client.request fetch c endpoint = Client.request fetch2 c endpoint :=
  ⟨rfl, hbody (c.base_url ++ "/" ++ endpoint)⟩

theorem client_request_ignores_status_witness :
    Client.request exFetchOk { base_url := "http://api" } "tasks" =
      Client.request exFetchErr { base_url := "http://api" } "tasks" :=
  (client_request_ignores_status exFetchOk exFetchErr
    { base_url := "http://api" } "tasks" (fun _ => rfl)).2

end Shamebot
